import Mathlib

/-!
Shallow embedding of `datasets/mvtec.py` (the MVTec dataset indexer/loader)
and proofs about its indexing, subsetting, few-shot and retrieval logic.

The file system, the image decoder, the tensor-transform pipelines and the
pseudo-random generators (`random.shuffle` seeded by `random.seed`, and
`torch.randint` seeded by `torch.manual_seed`) are opaque external services;
they are modelled as explicit function parameters, so every definition here
is a pure function of the directory contents and those services.
-/

set_option maxHeartbeats 1000000

namespace MVTec

/-- The `DatasetSplit` enum of `datasets/mvtec.py`. -/
inductive DatasetSplit where
  | TRAIN
  | VAL
  | TEST
deriving DecidableEq

/-- `split.value`: the on-disk directory name of a split. -/
def DatasetSplit.value : DatasetSplit → String
  | .TRAIN => "train"
  | .VAL => "val"
  | .TEST => "test"

/-- One entry of `data_to_iterate`: the Python list
`[classname, anomaly, image_path, mask_path_or_None]`. -/
structure Record where
  classname : String
  anomaly : String
  imagePath : String
  maskPath : Option String
deriving DecidableEq

instance : Inhabited Record := ⟨⟨"", "", "", none⟩⟩

/-- The read-only directory contents seen by `get_image_data`.
`listSplit c v` is `os.listdir(os.path.join(source, c, v))` (the anomaly-type
directories of class `c` under split directory `v`); `listFiles c v a` is
`os.listdir` of the anomaly directory `a` under that split; `listMasks c a` is
`os.listdir(os.path.join(source, c, "ground_truth", a))`.  `os.listdir`
returns each directory entry once, in unspecified order. -/
structure FS where
  listSplit : String → String → List String
  listFiles : String → String → String → List String
  listMasks : String → String → List String

/-- `os.path.join a b` for a relative component `b`. -/
def pjoin (a b : String) : String := a ++ "/" ++ b

/-- Python string `<`: strict lexicographic comparison by Unicode code point. -/
def lexLt : List Char → List Char → Bool
  | [], [] => false
  | [], _ :: _ => true
  | _ :: _, [] => false
  | a :: as, b :: bs =>
    if a.toNat < b.toNat then true
    else if b.toNat < a.toNat then false
    else lexLt as bs

/-- Python string `<` on `String`. -/
def strLt (a b : String) : Bool := lexLt a.data b.data

/-- Python string `<=` on `String` (the order `sorted` produces). -/
def strLe (a b : String) : Bool := !(strLt b a)

/-- Python `sorted` on strings: ascending lexicographic (code-point) order. -/
def sortStr (l : List String) : List String :=
  l.insertionSort (fun a b => strLe a b = true)

/-- The key sequence of a Python dict built by inserting each element of `l`
in turn: every key once, in order of first occurrence. -/
def firstKeys (l : List String) : List String :=
  l.foldl (fun acc k => if k ∈ acc then acc else acc ++ [k]) []

/-- The directory holding the images of one anomaly type:
`os.path.join(source, classname, split.value, anomaly)`. -/
def imgDir (source classname splitval anomaly : String) : String :=
  pjoin (pjoin (pjoin source classname) splitval) anomaly

/-- The directory holding the masks of one anomaly type:
`os.path.join(source, classname, "ground_truth", anomaly)`. -/
def maskDir (source classname anomaly : String) : String :=
  pjoin (pjoin (pjoin source classname) "ground_truth") anomaly

/-- The body of the `data_to_iterate` loop at one position `i` of the
enumerated image list: the image at `i` paired with the mask at `i`.
Indexing either list out of range (only possible for the mask list,
`maskpaths_per_class[classname][anomaly][i]` in the source) raises, which
is modelled by `none`. -/
def pairAt (mk : String → String → Record) (imgs masks : List String) (i : Nat) :
    Option Record :=
  match imgs.get? i, masks.get? i with
  | some p, some m => some (mk p m)
  | _, _ => none

/-- The records contributed to `data_to_iterate` by one `(classname, anomaly)`
pair: the sorted file listing, each file paired with the mask at the same
position of the sorted mask listing when `split == TEST` and the anomaly type
is neither "good" nor "fail", and with `None` otherwise. -/
def recordsForAnomaly (source classname : String) (split : DatasetSplit) (fs : FS)
    (anomaly : String) : Option (List Record) :=
  if split = DatasetSplit.TEST ∧ anomaly ∉ (["good", "fail"] : List String) then
    (List.range ((sortStr (fs.listFiles classname split.value anomaly)).map
        (fun x => pjoin (imgDir source classname split.value anomaly) x)).length).mapM
      (pairAt (fun p m => Record.mk classname anomaly p (some m))
        ((sortStr (fs.listFiles classname split.value anomaly)).map
          (fun x => pjoin (imgDir source classname split.value anomaly) x))
        ((sortStr (fs.listMasks classname anomaly)).map
          (fun x => pjoin (maskDir source classname anomaly) x)))
  else
    some (((sortStr (fs.listFiles classname split.value anomaly)).map
      (fun x => pjoin (imgDir source classname split.value anomaly) x)).map
      (fun p => Record.mk classname anomaly p none))

/-- The records contributed by one class: its anomaly-type directories are
the keys of `imgpaths_per_class[classname]` (each listed directory once),
iterated in sorted order. -/
def recordsForClass (source : String) (split : DatasetSplit) (fs : FS)
    (classname : String) : Option (List Record) := do
  let groups ← (sortStr (firstKeys (fs.listSplit classname split.value))).mapM
      (recordsForAnomaly source classname split fs)
  pure groups.flatten

/-- `get_image_data` of `datasets/mvtec.py`: the flattened `data_to_iterate`,
iterating the classes in sorted order. -/
def get_image_data (source : String) (classes : List String) (split : DatasetSplit)
    (fs : FS) : Option (List Record) := do
  let groups ← (sortStr (firstKeys classes)).mapM (recordsForClass source split fs)
  pure groups.flatten

/-- Python `p.split('/')`: the (possibly empty) runs of characters between
the occurrences of the separator. -/
def splitSlash : List Char → List (List Char)
  | [] => [[]]
  | c :: cs =>
    if c = '/' then [] :: splitSlash cs
    else
      match splitSlash cs with
      | [] => [[c]]
      | r :: rs => (c :: r) :: rs

/-- `full_datasets[i][2].split('/')[-2]` from `sub_datasets`: the
second-to-last component of a path (the anomaly-type directory name for
every path built by `get_image_data`).  A path with fewer than two
components cannot arise from `get_image_data`. -/
def pathKey (p : String) : String :=
  match (splitSlash p.data).reverse with
  | _ :: a :: _ => String.mk a
  | _ => ""

/-- Python `[lst[i:i+n] for i in range(0, len(lst), n)]` for `n >= 1`:
the consecutive chunks of size `n` (the last one possibly shorter). -/
def chunkList (n : Nat) : List α → List (List α)
  | [] => []
  | x :: xs =>
    if _h : n = 0 then []
    else (x :: xs).take n :: chunkList n ((x :: xs).drop n)
termination_by l => l.length
decreasing_by
  simp only [List.length_drop, List.length_cons]
  omega

/-- `sub_datasets` of `datasets/mvtec.py`.  The global `random` module is
modelled by a state type `S` with `seedInit` for `random.seed` and
`shuffle` for `random.shuffle` (which returns the permuted list and the
advanced generator state).  Record indices are grouped by the
second-to-last component of the image path, in first-occurrence order;
each group is shuffled, cut into chunks of `divide_num`, and the element
at position `divide_iter` of every long-enough chunk is kept. -/
def sub_datasets {S : Type} (seedInit : Nat → S) (shuffle : S → List Nat → List Nat × S)
    (full_datasets : List Record) (divide_num divide_iter random_seed : Nat) :
    List Record :=
  if divide_num = 0 then full_datasets
  else
    let keys := firstKeys (full_datasets.map (fun r => pathKey r.imagePath))
    let step : (List Nat × S) → String → (List Nat × S) := fun acc k =>
      let type_id_list := (List.range full_datasets.length).filter
          (fun i => pathKey (full_datasets.getD i default).imagePath == k)
      let sh := shuffle acc.2 type_id_list
      let devide_list := chunkList divide_num sh.1
      let sub_list := devide_list.filterMap
          (fun c => if divide_iter < c.length then c.get? divide_iter else none)
      (acc.1 ++ sub_list, sh.2)
    let res := keys.foldl step ([], seedInit random_seed)
    res.1.filterMap (fun i => full_datasets.get? i)

/-- Modelled from the spec: the uniform-subset step as the spec words it —
"group record indices by anomaly-type, shuffle each group with the given
seed, partition each group into chunks of size divide_num, and keep — from
each chunk that has an element at position divide_iter — that one
element".  Grouping is by the record's anomaly-type field. -/
def sub_datasets_spec {S : Type} (seedInit : Nat → S) (shuffle : S → List Nat → List Nat × S)
    (full_datasets : List Record) (divide_num divide_iter random_seed : Nat) :
    List Record :=
  let keys := firstKeys (full_datasets.map Record.anomaly)
  let step : (List Nat × S) → String → (List Nat × S) := fun acc k =>
    let group := (List.range full_datasets.length).filter
        (fun i => (full_datasets.getD i default).anomaly == k)
    let sh := shuffle acc.2 group
    let chunks := chunkList divide_num sh.1
    let kept := chunks.filterMap
        (fun c => if divide_iter < c.length then c.get? divide_iter else none)
    (acc.1 ++ kept, sh.2)
  let res := keys.foldl step ([], seedInit random_seed)
  res.1.filterMap (fun i => full_datasets.get? i)

/-- The few-shot branch of `__init__`: when `k_shot > 0` and
`k_shot < len(data_to_iterate)`, draw `k_shot` indices with
`torch.randint(0, len, (k_shot,))` (modelled by `randint seed bound count`)
and keep the records at those indices; when `k_shot >= len`, `pass`.
An out-of-range drawn index would raise, modelled by `none`. -/
def few_shot_step (randint : Nat → Nat → Nat → List Nat) (random_seed k_shot : Nat)
    (d : List Record) : Option (List Record) :=
  if 0 < k_shot then
    if d.length ≤ k_shot then some d
    else (randint random_seed d.length k_shot).mapM (fun i => d.get? i)
  else some d

/-- The construction parameters of `MVTecDataset.__init__` that shape
`data_to_iterate`. -/
structure Params where
  divide_num : Nat
  divide_iter : Nat
  k_shot : Nat
  random_seed : Nat
deriving DecidableEq

/-- The index-building part of `MVTecDataset.__init__`: `get_image_data`,
then `sub_datasets` when `divide_num > 1`, then the few-shot branch when
`k_shot > 0`. -/
def init_dataset {S : Type} (seedInit : Nat → S) (shuffle : S → List Nat → List Nat × S)
    (randint : Nat → Nat → Nat → List Nat) (source : String) (classes : List String)
    (split : DatasetSplit) (fs : FS) (p : Params) : Option (List Record) := do
  let full ← get_image_data source classes split fs
  let d1 := if 1 < p.divide_num then
      sub_datasets seedInit shuffle full p.divide_num p.divide_iter p.random_seed
    else full
  few_shot_step randint p.random_seed p.k_shot d1

/-- A tensor, reduced to its shape and its flat list of entries. -/
structure Tensor where
  shape : List Nat
  entries : List Int
deriving DecidableEq

/-- `torch.zeros(s)`. -/
def Tensor.zeros (s : List Nat) : Tensor := ⟨s, List.replicate s.prod 0⟩

/-- The dict returned by `__getitem__`. -/
structure Sample where
  image : Tensor
  mask : Tensor
  is_anomaly : Nat
  image_path : String
deriving DecidableEq

/-- The mask branch of `__getitem__`: the mask pipeline applied to the
loaded mask file when `split == TEST` and the record has a mask path, and
`torch.zeros([1, *image.size()[1:]])` otherwise. -/
def maskOf {Img : Type} (loadMask : String → Img) (transform_mask : Img → Tensor)
    (split : DatasetSplit) (mp : Option String) (image : Tensor) : Tensor :=
  match split, mp with
  | DatasetSplit.TEST, some m => transform_mask (loadMask m)
  | _, _ => Tensor.zeros (1 :: image.shape.drop 1)

/-- `__getitem__` of `datasets/mvtec.py`.  Image decoding and the two
transform pipelines are opaque: `loadRGB` is
`PIL.Image.open(...).convert("RGB")`, `transform_img` the image pipeline,
`loadMask` is `PIL.Image.open(mask_path)` and `transform_mask` the mask
pipeline, over an abstract decoded-image type `Img`.  An out-of-range
index raises, modelled by `none`. -/
def getItem {Img : Type} (loadRGB : String → Img) (transform_img : Img → Tensor)
    (loadMask : String → Img) (transform_mask : Img → Tensor)
    (split : DatasetSplit) (data_to_iterate : List Record) (idx : Nat) :
    Option Sample := do
  let r ← data_to_iterate.get? idx
  let image := transform_img (loadRGB r.imagePath)
  let mask := maskOf loadMask transform_mask split r.maskPath image
  pure { image := image, mask := mask,
         is_anomaly := if r.anomaly ≠ "good" then 1 else 0,
         image_path := r.imagePath }

/-- The ordering of the Index described by the spec: by class name (Python
string order), then by anomaly-type within a class; records of the same
class and anomaly-type are unordered by this relation (they follow the
sorted file listing, stated separately). -/
def recordKeyLE (r₁ r₂ : Record) : Prop :=
  strLt r₁.classname r₂.classname = true ∨
    (r₁.classname = r₂.classname ∧
      (strLt r₁.anomaly r₂.anomaly = true ∨ r₁.anomaly = r₂.anomaly))

/-! ### Concrete directory contents used to evaluate the theorems -/

/-- A toy directory tree: one class "toy" whose train split holds three good
images. -/
def fsTrain3 : FS where
  listSplit := fun c v => if c = "toy" ∧ v = "train" then ["good"] else []
  listFiles := fun c v a =>
    if c = "toy" ∧ v = "train" ∧ a = "good" then ["c.png", "a.png", "b.png"] else []
  listMasks := fun _ _ => []

/-- A toy directory tree: one class "toy" whose test split holds two good
images and one crack image with a matching mask. -/
def fsTest : FS where
  listSplit := fun c v => if c = "toy" ∧ v = "test" then ["good", "crack"] else []
  listFiles := fun c v a =>
    if c = "toy" ∧ v = "test" then
      (if a = "good" then ["b.png", "a.png"] else if a = "crack" then ["c.png"] else [])
    else []
  listMasks := fun c a => if c = "toy" ∧ a = "crack" then ["c_mask.png"] else []

/-- A toy directory tree whose test split holds two crack images but only one
crack mask: fewer masks than images. -/
def fsShortMasks : FS where
  listSplit := fun c v => if c = "toy" ∧ v = "test" then ["crack"] else []
  listFiles := fun c v a =>
    if c = "toy" ∧ v = "test" ∧ a = "crack" then ["a.png", "b.png"] else []
  listMasks := fun c a => if c = "toy" ∧ a = "crack" then ["a_mask.png"] else []

/-- A toy directory tree whose test split holds one crack image but two crack
masks: more masks than images. -/
def fsExtraMasks : FS where
  listSplit := fun c v => if c = "toy" ∧ v = "test" then ["crack"] else []
  listFiles := fun c v a =>
    if c = "toy" ∧ v = "test" ∧ a = "crack" then ["a.png"] else []
  listMasks := fun c a =>
    if c = "toy" ∧ a = "crack" then ["b_mask.png", "a_mask.png"] else []

/-! ### Helper lemmas -/

theorem length_le_of_mem_chunkList {α : Type} {c : List α} :
    ∀ (n : Nat) (l : List α), c ∈ chunkList n l → c.length ≤ n
  | n, [] => by simp [chunkList]
  | n, x :: xs => by
    intro hc
    rw [chunkList] at hc
    split at hc
    · simp at hc
    · rcases List.mem_cons.mp hc with h1 | h2
      · subst h1; simp [List.length_take]
      · exact length_le_of_mem_chunkList n ((x :: xs).drop n) h2
termination_by _ l => l.length
decreasing_by simp only [List.length_drop, List.length_cons]; omega

theorem foldl_fst_of_step_fst {S : Type}
    (step : (List Nat × S) → String → (List Nat × S))
    (hstep : ∀ acc k, (step acc k).1 = acc.1) :
    ∀ (keys : List String) (acc : List Nat × S), (keys.foldl step acc).1 = acc.1 := by
  intro keys
  induction keys with
  | nil => intro acc; rfl
  | cons k ks ih => intro acc; rw [List.foldl_cons, ih, hstep]

theorem mapM_get?_eq_map {α : Type} [Inhabited α] {l : List α} :
    ∀ idxs : List Nat, (∀ i ∈ idxs, i < l.length) →
      idxs.mapM (fun i => l.get? i) = some (idxs.map (fun i => l.getD i default)) := by
  intro idxs
  induction idxs with
  | nil => intro _; rfl
  | cons i is ih =>
    intro h
    have hi : i < l.length := h i (List.mem_cons_self i is)
    rw [List.mapM_cons, ih (fun j hj => h j (List.mem_cons_of_mem i hj))]
    simp [List.get?_eq_getElem?, List.getElem?_eq_getElem hi]

theorem mapM_comp_of_map {α β γ : Type} (g : α → β) (f : β → Option γ) :
    ∀ l : List α, (l.map g).mapM f = l.mapM (fun a => f (g a)) := by
  intro l
  induction l with
  | nil => rfl
  | cons a as ih => rw [List.map_cons, List.mapM_cons, List.mapM_cons, ih]

theorem mem_of_mapM_some {α β : Type} {f : α → Option β} :
    ∀ {l : List α} {ys : List β}, l.mapM f = some ys → ∀ {y}, y ∈ ys →
      ∃ x ∈ l, f x = some y := by
  intro l
  induction l with
  | nil =>
    intro ys h y hy
    simp only [List.mapM_nil, Option.pure_def, Option.some.injEq] at h
    subst h
    simp at hy
  | cons a as ih =>
    intro ys h y hy
    rw [List.mapM_cons] at h
    cases hfa : f a with
    | none => rw [hfa] at h; simp at h
    | some b =>
      rw [hfa] at h
      cases hmm : as.mapM f with
      | none => rw [hmm] at h; simp at h
      | some bs =>
        rw [hmm] at h
        simp only [Option.bind_eq_bind, Option.some_bind, Option.pure_def,
          Option.some.injEq] at h
        subst h
        rcases List.mem_cons.mp hy with hy | hy
        · exact ⟨a, List.mem_cons_self a as, hy ▸ hfa⟩
        · rcases ih hmm hy with ⟨x, hx, hfx⟩
          exact ⟨x, List.mem_cons_of_mem a hx, hfx⟩

theorem range_mapM_pairAt (mk : String → String → Record) :
    ∀ (imgs masks : List String),
      (List.range imgs.length).mapM (pairAt mk imgs masks) =
      if imgs.length ≤ masks.length then
        some ((imgs.zip masks).map (fun pm => mk pm.1 pm.2))
      else none := by
  intro imgs
  induction imgs with
  | nil =>
    intro masks
    rw [if_pos (show ([] : List String).length ≤ masks.length from Nat.zero_le _)]
    rfl
  | cons x xs ih =>
    intro masks
    cases masks with
    | nil =>
      rw [List.length_cons, List.range_succ_eq_map, List.mapM_cons]
      have h0 : pairAt mk (x :: xs) [] 0 = none := rfl
      rw [h0]
      simp
    | cons m ms =>
      rw [List.length_cons, List.range_succ_eq_map, List.mapM_cons]
      have h0 : pairAt mk (x :: xs) (m :: ms) 0 = some (mk x m) := rfl
      have hmap : (List.map Nat.succ (List.range xs.length)).mapM
          (pairAt mk (x :: xs) (m :: ms)) =
          (List.range xs.length).mapM (pairAt mk xs ms) := by
        rw [mapM_comp_of_map]
        rfl
      rw [h0, hmap, ih ms]
      by_cases hle : xs.length ≤ ms.length
      · rw [if_pos hle, if_pos (by simpa using hle)]
        simp
      · rw [if_neg hle, if_neg (by simpa using hle)]
        rfl

/-- The TEST branch of `recordsForAnomaly`, in closed form: it succeeds iff
there are at least as many sorted masks as sorted images, and then pairs
image `i` with mask `i`, silently ignoring any masks past the image count. -/
theorem recordsForAnomaly_test_eq (source classname : String) (fs : FS) (anomaly : String)
    (ha : anomaly ∉ (["good", "fail"] : List String)) :
    recordsForAnomaly source classname DatasetSplit.TEST fs anomaly =
      (if ((sortStr (fs.listFiles classname "test" anomaly)).map
            (fun x => pjoin (imgDir source classname "test" anomaly) x)).length ≤
          ((sortStr (fs.listMasks classname anomaly)).map
            (fun x => pjoin (maskDir source classname anomaly) x)).length then
        some ((((sortStr (fs.listFiles classname "test" anomaly)).map
            (fun x => pjoin (imgDir source classname "test" anomaly) x)).zip
          ((sortStr (fs.listMasks classname anomaly)).map
            (fun x => pjoin (maskDir source classname anomaly) x))).map
          (fun pm => Record.mk classname anomaly pm.1 (some pm.2)))
      else none) := by
  rw [recordsForAnomaly, if_pos ⟨rfl, ha⟩]
  exact range_mapM_pairAt _ _ _

/-- The None branch of `recordsForAnomaly`: for a non-TEST split or a "good"
or "fail" anomaly-type, every file yields a record without a mask path. -/
theorem recordsForAnomaly_other_eq (source classname : String) (split : DatasetSplit)
    (fs : FS) (anomaly : String)
    (h : ¬(split = DatasetSplit.TEST ∧ anomaly ∉ (["good", "fail"] : List String))) :
    recordsForAnomaly source classname split fs anomaly =
      some (((sortStr (fs.listFiles classname split.value anomaly)).map
        (fun x => pjoin (imgDir source classname split.value anomaly) x)).map
        (fun p => Record.mk classname anomaly p none)) := by
  rw [recordsForAnomaly, if_neg h]

/-- The fields of any record produced by `recordsForAnomaly`. -/
theorem fields_of_mem_recordsForAnomaly {source classname : String}
    {split : DatasetSplit} {fs : FS} {anomaly : String} {ga : List Record} {r : Record}
    (hg : recordsForAnomaly source classname split fs anomaly = some ga)
    (hr : r ∈ ga) :
    r.classname = classname ∧ r.anomaly = anomaly ∧
    (r.maskPath ≠ none ↔
      (split = DatasetSplit.TEST ∧ anomaly ∉ (["good", "fail"] : List String))) := by
  by_cases hcond : split = DatasetSplit.TEST ∧ anomaly ∉ (["good", "fail"] : List String)
  · obtain ⟨hsp, ha⟩ := hcond
    subst hsp
    rw [recordsForAnomaly_test_eq source classname fs anomaly ha] at hg
    split at hg
    · rw [Option.some.injEq] at hg
      subst hg
      rcases List.mem_map.mp hr with ⟨pm, _, hpm⟩
      subst hpm
      exact ⟨rfl, rfl, iff_of_true (by simp) ⟨rfl, ha⟩⟩
    · exact absurd hg (by simp)
  · rw [recordsForAnomaly_other_eq source classname split fs anomaly hcond] at hg
    rw [Option.some.injEq] at hg
    subst hg
    rcases List.mem_map.mp hr with ⟨p, _, hp⟩
    subst hp
    exact ⟨rfl, rfl, iff_of_false (by simp) hcond⟩

/-- Locate the `(class, anomaly)` group of any record of a constructed
Index. -/
theorem mem_get_image_data {source : String} {classes : List String}
    {split : DatasetSplit} {fs : FS} {recs : List Record} {r : Record}
    (h : get_image_data source classes split fs = some recs) (hr : r ∈ recs) :
    ∃ classname ∈ sortStr (firstKeys classes),
      ∃ anomaly ∈ sortStr (firstKeys (fs.listSplit classname split.value)),
        ∃ ga, recordsForAnomaly source classname split fs anomaly = some ga ∧ r ∈ ga := by
  rw [get_image_data] at h
  cases hmm : (sortStr (firstKeys classes)).mapM (recordsForClass source split fs) with
  | none => rw [hmm] at h; simp at h
  | some groups =>
    rw [hmm] at h
    simp only [Option.bind_eq_bind, Option.some_bind, Option.pure_def,
      Option.some.injEq] at h
    subst h
    rcases List.mem_flatten.mp hr with ⟨g, hgmem, hrg⟩
    rcases mem_of_mapM_some hmm hgmem with ⟨classname, hcmem, hcg⟩
    refine ⟨classname, hcmem, ?_⟩
    rw [recordsForClass] at hcg
    cases hmm2 : (sortStr (firstKeys (fs.listSplit classname split.value))).mapM
        (recordsForAnomaly source classname split fs) with
    | none => rw [hmm2] at hcg; simp at hcg
    | some ags =>
      rw [hmm2] at hcg
      simp only [Option.bind_eq_bind, Option.some_bind, Option.pure_def,
        Option.some.injEq] at hcg
      subst hcg
      rcases List.mem_flatten.mp hrg with ⟨ga, hgamem, hrga⟩
      rcases mem_of_mapM_some hmm2 hgamem with ⟨anomaly, hamem, hag⟩
      exact ⟨anomaly, hamem, ga, hag, hrga⟩

/-! ### The Python string order -/

theorem lexLt_asymm : ∀ as bs : List Char, lexLt as bs = true → lexLt bs as = false := by
  intro as
  induction as with
  | nil =>
    intro bs h
    cases bs with
    | nil => exact absurd h (by simp [lexLt])
    | cons b bs => rfl
  | cons a as ih =>
    intro bs h
    cases bs with
    | nil => exact absurd h (by simp [lexLt])
    | cons b bs =>
      rw [lexLt] at h ⊢
      by_cases h1 : a.toNat < b.toNat
      · rw [if_neg (by omega), if_pos h1]
      · rw [if_neg h1] at h
        by_cases h2 : b.toNat < a.toNat
        · rw [if_pos h2] at h; exact absurd h (by simp)
        · rw [if_neg h2] at h
          rw [if_neg h2, if_neg h1]
          exact ih bs h

theorem lexLt_antisymm : ∀ as bs : List Char,
    lexLt as bs = false → lexLt bs as = false → as = bs := by
  intro as
  induction as with
  | nil =>
    intro bs h1 _
    cases bs with
    | nil => rfl
    | cons b bs => exact absurd h1 (by simp [lexLt])
  | cons a as ih =>
    intro bs h1 h2
    cases bs with
    | nil => exact absurd h2 (by simp [lexLt])
    | cons b bs =>
      rw [lexLt] at h1 h2
      by_cases hab : a.toNat < b.toNat
      · rw [if_pos hab] at h1; exact absurd h1 (by simp)
      · by_cases hba : b.toNat < a.toNat
        · rw [if_pos hba] at h2; exact absurd h2 (by simp)
        · rw [if_neg hab, if_neg hba] at h1
          rw [if_neg hba, if_neg hab] at h2
          have hnat : a.toNat = b.toNat := by omega
          have hc : a = b := Char.ext (UInt32.toNat.inj hnat)
          rw [hc, ih bs h1 h2]

theorem lexLt_trans : ∀ as bs cs : List Char,
    lexLt as bs = true → lexLt bs cs = true → lexLt as cs = true := by
  intro as
  induction as with
  | nil =>
    intro bs cs h1 h2
    cases bs with
    | nil => exact absurd h1 (by simp [lexLt])
    | cons b bs =>
      cases cs with
      | nil => exact absurd h2 (by simp [lexLt])
      | cons c cs => rfl
  | cons a as ih =>
    intro bs cs h1 h2
    cases bs with
    | nil => exact absurd h1 (by simp [lexLt])
    | cons b bs =>
      cases cs with
      | nil => exact absurd h2 (by simp [lexLt])
      | cons c cs =>
        rw [lexLt] at h1 h2 ⊢
        by_cases hab : a.toNat < b.toNat
        · by_cases hbc : b.toNat < c.toNat
          · rw [if_pos (by omega)]
          · rw [if_neg hbc] at h2
            by_cases hcb : c.toNat < b.toNat
            · rw [if_pos hcb] at h2; exact absurd h2 (by simp)
            · rw [if_pos (by omega)]
        · rw [if_neg hab] at h1
          by_cases hba : b.toNat < a.toNat
          · rw [if_pos hba] at h1; exact absurd h1 (by simp)
          · rw [if_neg hba] at h1
            by_cases hbc : b.toNat < c.toNat
            · rw [if_pos (by omega)]
            · rw [if_neg hbc] at h2
              by_cases hcb : c.toNat < b.toNat
              · rw [if_pos hcb] at h2; exact absurd h2 (by simp)
              · rw [if_neg hcb] at h2
                rw [if_neg (by omega), if_neg (by omega)]
                exact ih bs cs h1 h2

theorem string_data_inj {a b : String} (h : a.data = b.data) : a = b := by
  cases a
  cases b
  exact congrArg String.mk h

theorem strLe_total : ∀ a b : String, strLe a b = true ∨ strLe b a = true := by
  intro a b
  cases hlt : lexLt b.data a.data with
  | false => left; simp [strLe, strLt, hlt]
  | true => right; simp [strLe, strLt, lexLt_asymm _ _ hlt]

theorem strLe_trans : ∀ a b c : String,
    strLe a b = true → strLe b c = true → strLe a c = true := by
  intro a b c h1 h2
  simp only [strLe, strLt, Bool.not_eq_true'] at h1 h2 ⊢
  cases hca : lexLt c.data a.data with
  | false => rfl
  | true =>
    cases hab : lexLt a.data b.data with
    | true =>
      have hcb : lexLt c.data b.data = true := lexLt_trans _ _ _ hca hab
      rw [hcb] at h2
      exact h2
    | false =>
      have hdata : a.data = b.data := lexLt_antisymm _ _ hab h1
      rw [← hdata, hca] at h2
      exact h2

theorem strLt_of_strLe_ne {a b : String} (h : strLe a b = true) (hne : a ≠ b) :
    strLt a b = true := by
  simp only [strLe, strLt, Bool.not_eq_true'] at h
  simp only [strLt]
  cases hab : lexLt a.data b.data with
  | true => rfl
  | false => exact absurd (string_data_inj (lexLt_antisymm _ _ hab h)) hne

instance strLeIsTotal : IsTotal String (fun a b => strLe a b = true) :=
  ⟨strLe_total⟩

instance strLeIsTrans : IsTrans String (fun a b => strLe a b = true) :=
  ⟨strLe_trans⟩

theorem sortStr_sorted (l : List String) :
    (sortStr l).Pairwise (fun a b => strLe a b = true) :=
  List.sorted_insertionSort _ l

theorem sortStr_perm (l : List String) : (sortStr l).Perm l :=
  List.perm_insertionSort _ l

theorem mem_sortStr {x : String} {l : List String} : x ∈ sortStr l ↔ x ∈ l :=
  List.mem_insertionSort _

theorem sortStr_nodup {l : List String} (h : l.Nodup) : (sortStr l).Nodup :=
  (sortStr_perm l).nodup_iff.mpr h

theorem sortStr_pairwise_lt {l : List String} (h : l.Nodup) :
    (sortStr l).Pairwise (fun a b => strLt a b = true) := by
  have h1 := sortStr_sorted l
  have h2 : (sortStr l).Pairwise (fun a b : String => a ≠ b) := sortStr_nodup h
  exact (h1.and h2).imp (fun hab => strLt_of_strLe_ne hab.1 hab.2)

/-! ### The keys of an insertion-built dict -/

theorem firstKeys_aux_nodup :
    ∀ (l acc : List String), acc.Nodup →
      (l.foldl (fun acc k => if k ∈ acc then acc else acc ++ [k]) acc).Nodup := by
  intro l
  induction l with
  | nil => intro acc h; exact h
  | cons k ks ih =>
    intro acc h
    rw [List.foldl_cons]
    by_cases hk : k ∈ acc
    · rw [if_pos hk]; exact ih acc h
    · rw [if_neg hk]
      refine ih _ ?_
      rw [List.nodup_append]
      exact ⟨h, List.nodup_singleton k, by simpa [List.disjoint_singleton] using hk⟩

theorem firstKeys_nodup (l : List String) : (firstKeys l).Nodup :=
  firstKeys_aux_nodup l [] List.nodup_nil

theorem firstKeys_aux_mem :
    ∀ (l acc : List String) (x : String),
      x ∈ l.foldl (fun acc k => if k ∈ acc then acc else acc ++ [k]) acc ↔
        x ∈ acc ∨ x ∈ l := by
  intro l
  induction l with
  | nil => intro acc x; simp
  | cons k ks ih =>
    intro acc x
    rw [List.foldl_cons]
    by_cases hk : k ∈ acc
    · rw [if_pos hk, ih]
      constructor
      · rintro (h | h)
        · exact Or.inl h
        · exact Or.inr (List.mem_cons_of_mem _ h)
      · rintro (h | h)
        · exact Or.inl h
        · rcases List.mem_cons.mp h with rfl | h
          · exact Or.inl hk
          · exact Or.inr h
    · rw [if_neg hk, ih]
      simp only [List.mem_append, List.mem_singleton, List.mem_cons]
      tauto

theorem mem_firstKeys {x : String} {l : List String} : x ∈ firstKeys l ↔ x ∈ l := by
  simpa using firstKeys_aux_mem l [] x

/-! ### Option mapM and Forall₂ -/

theorem forall₂_of_mapM {α β : Type} {f : α → Option β} :
    ∀ {l : List α} {ys : List β}, l.mapM f = some ys →
      List.Forall₂ (fun a b => f a = some b) l ys := by
  intro l
  induction l with
  | nil =>
    intro ys h
    simp only [List.mapM_nil, Option.pure_def, Option.some.injEq] at h
    subst h
    exact List.Forall₂.nil
  | cons a as ih =>
    intro ys h
    rw [List.mapM_cons] at h
    cases hfa : f a with
    | none => rw [hfa] at h; simp at h
    | some b =>
      rw [hfa] at h
      cases hmm : as.mapM f with
      | none => rw [hmm] at h; simp at h
      | some bs =>
        rw [hmm] at h
        simp only [Option.bind_eq_bind, Option.some_bind, Option.pure_def,
          Option.some.injEq] at h
        subst h
        exact List.Forall₂.cons hfa (ih hmm)

theorem exists_of_forall₂_mem_right {α β : Type} {P : α → β → Prop} :
    ∀ {l : List α} {ys : List β}, List.Forall₂ P l ys → ∀ {y}, y ∈ ys →
      ∃ a ∈ l, P a y := by
  intro l ys h
  induction h with
  | nil => intro y hy; simp at hy
  | cons hab _ ih =>
    intro y hy
    rcases List.mem_cons.mp hy with rfl | hy
    · exact ⟨_, List.mem_cons_self _ _, hab⟩
    · rcases ih hy with ⟨a, ha, hp⟩
      exact ⟨a, List.mem_cons_of_mem _ ha, hp⟩

theorem exists_of_forall₂_mem_left {α β : Type} {P : α → β → Prop} :
    ∀ {l : List α} {ys : List β}, List.Forall₂ P l ys → ∀ {a}, a ∈ l →
      ∃ y ∈ ys, P a y := by
  intro l ys h
  induction h with
  | nil => intro a ha; simp at ha
  | cons hab _ ih =>
    intro a ha
    rcases List.mem_cons.mp ha with rfl | ha
    · exact ⟨_, List.mem_cons_self _ _, hab⟩
    · rcases ih ha with ⟨y, hy, hp⟩
      exact ⟨y, List.mem_cons_of_mem _ hy, hp⟩

theorem forall₂_pairwise {α β : Type} {P : α → β → Prop} {Q : α → α → Prop}
    {R : β → β → Prop}
    (hPQ : ∀ {a₁ a₂ b₁ b₂}, P a₁ b₁ → P a₂ b₂ → Q a₁ a₂ → R b₁ b₂) :
    ∀ {l : List α} {ys : List β}, List.Forall₂ P l ys → l.Pairwise Q →
      ys.Pairwise R := by
  intro l ys h
  induction h with
  | nil => intro _; exact List.Pairwise.nil
  | cons hab htail ih =>
    intro hp
    rcases List.pairwise_cons.mp hp with ⟨hQhead, htl⟩
    refine List.Pairwise.cons ?_ (ih htl)
    intro y hy
    obtain ⟨a, ha, hPa⟩ := exists_of_forall₂_mem_right htail hy
    exact hPQ hab hPa (hQhead a ha)

/-! ### Grouped structure of the constructed Index -/

theorem flatten_filter_nil {p : Record → Bool} {P : String → List Record → Prop} :
    ∀ {ks : List String} {gs : List (List Record)}, List.Forall₂ P ks gs →
      (∀ k ∈ ks, ∀ g, P k g → g.filter p = []) →
      (gs.map (List.filter p)).flatten = [] := by
  intro ks gs h
  induction h with
  | nil => intro _; rfl
  | cons hab htail ih =>
    intro hall
    rw [List.map_cons, List.flatten_cons,
      hall _ (List.mem_cons_self _ _) _ hab, List.nil_append]
    exact ih (fun k hk g hg => hall k (List.mem_cons_of_mem _ hk) g hg)

theorem flatten_filter_single {p : Record → Bool} {P : String → List Record → Prop} :
    ∀ {ks : List String} {gs : List (List Record)}, List.Forall₂ P ks gs → ks.Nodup →
      ∀ (k₀ : String), k₀ ∈ ks →
      (∀ k ∈ ks, ∀ g, P k g → k ≠ k₀ → g.filter p = []) →
      ∀ (q : List Record), (∀ g, P k₀ g → g.filter p = q) →
      (gs.map (List.filter p)).flatten = q := by
  intro ks gs h
  induction h with
  | nil =>
    intro _ k₀ hk₀ _ q _
    simp at hk₀
  | cons hab htail ih =>
    rename_i k₁ g₁ ks₁ gs₁
    intro hnd k₀ hk₀ hother q hthis
    rw [List.map_cons, List.flatten_cons]
    rcases List.mem_cons.mp hk₀ with rfl | hk₀tail
    · rw [hthis _ hab]
      have hrest : (gs₁.map (List.filter p)).flatten = [] := by
        refine flatten_filter_nil htail ?_
        intro k hk g hg
        have hkne : k ≠ k₀ := by
          intro he
          subst he
          exact (List.nodup_cons.mp hnd).1 hk
        exact hother k (List.mem_cons_of_mem _ hk) g hg hkne
      rw [hrest, List.append_nil]
    · have hane : k₁ ≠ k₀ := by
        intro he
        subst he
        exact (List.nodup_cons.mp hnd).1 hk₀tail
      rw [hother _ (List.mem_cons_self _ _) _ hab hane, List.nil_append]
      exact ih (List.nodup_cons.mp hnd).2 k₀ hk₀tail
        (fun k hk g hg => hother k (List.mem_cons_of_mem _ hk) g hg) q hthis

theorem recordsForClass_groups {source : String} {split : DatasetSplit} {fs : FS}
    {c : String} {g : List Record}
    (h : recordsForClass source split fs c = some g) :
    ∃ ags, (sortStr (firstKeys (fs.listSplit c split.value))).mapM
        (recordsForAnomaly source c split fs) = some ags ∧ g = ags.flatten := by
  rw [recordsForClass] at h
  cases hmm : (sortStr (firstKeys (fs.listSplit c split.value))).mapM
      (recordsForAnomaly source c split fs) with
  | none => rw [hmm] at h; simp at h
  | some ags =>
    rw [hmm] at h
    simp only [Option.bind_eq_bind, Option.some_bind, Option.pure_def,
      Option.some.injEq] at h
    exact ⟨ags, rfl, h.symm⟩

theorem get_image_data_groups {source : String} {classes : List String}
    {split : DatasetSplit} {fs : FS} {recs : List Record}
    (h : get_image_data source classes split fs = some recs) :
    ∃ groups, (sortStr (firstKeys classes)).mapM (recordsForClass source split fs) =
        some groups ∧ recs = groups.flatten := by
  rw [get_image_data] at h
  cases hmm : (sortStr (firstKeys classes)).mapM (recordsForClass source split fs) with
  | none => rw [hmm] at h; simp at h
  | some groups =>
    rw [hmm] at h
    simp only [Option.bind_eq_bind, Option.some_bind, Option.pure_def,
      Option.some.injEq] at h
    exact ⟨groups, rfl, h.symm⟩

theorem classname_of_mem_recordsForClass {source : String} {split : DatasetSplit}
    {fs : FS} {c : String} {g : List Record} {r : Record}
    (h : recordsForClass source split fs c = some g) (hr : r ∈ g) :
    r.classname = c := by
  obtain ⟨ags, hmm, rfl⟩ := recordsForClass_groups h
  rcases List.mem_flatten.mp hr with ⟨ga, hgamem, hrga⟩
  rcases exists_of_forall₂_mem_right (forall₂_of_mapM hmm) hgamem with ⟨a, _, hag⟩
  exact (fields_of_mem_recordsForAnomaly hag hrga).1

theorem recordsForClass_pairwise {source : String} {split : DatasetSplit} {fs : FS}
    {c : String} {g : List Record}
    (h : recordsForClass source split fs c = some g) :
    g.Pairwise recordKeyLE := by
  obtain ⟨ags, hmm, rfl⟩ := recordsForClass_groups h
  have hf2 := forall₂_of_mapM hmm
  rw [List.pairwise_flatten]
  constructor
  · intro ga hga
    rcases exists_of_forall₂_mem_right hf2 hga with ⟨a, _, hag⟩
    apply List.pairwise_of_forall_mem_list
    intro x hx y hy
    obtain ⟨hxc, hxa, _⟩ := fields_of_mem_recordsForAnomaly hag hx
    obtain ⟨hyc, hya, _⟩ := fields_of_mem_recordsForAnomaly hag hy
    exact Or.inr ⟨hxc.trans hyc.symm, Or.inr (hxa.trans hya.symm)⟩
  · refine forall₂_pairwise ?_ hf2
      (sortStr_pairwise_lt (firstKeys_nodup (fs.listSplit c split.value)))
    intro a₁ a₂ g₁ g₂ h₁ h₂ hlt x hx y hy
    obtain ⟨hxc, hxa, _⟩ := fields_of_mem_recordsForAnomaly h₁ hx
    obtain ⟨hyc, hya, _⟩ := fields_of_mem_recordsForAnomaly h₂ hy
    exact Or.inr ⟨hxc.trans hyc.symm, Or.inl (by rw [hxa, hya]; exact hlt)⟩

theorem get_image_data_pairwise {source : String} {classes : List String}
    {split : DatasetSplit} {fs : FS} {recs : List Record}
    (h : get_image_data source classes split fs = some recs) :
    recs.Pairwise recordKeyLE := by
  obtain ⟨groups, hmm, rfl⟩ := get_image_data_groups h
  have hf2 := forall₂_of_mapM hmm
  rw [List.pairwise_flatten]
  constructor
  · intro g hg
    rcases exists_of_forall₂_mem_right hf2 hg with ⟨c, _, hcg⟩
    exact recordsForClass_pairwise hcg
  · refine forall₂_pairwise ?_ hf2 (sortStr_pairwise_lt (firstKeys_nodup classes))
    intro c₁ c₂ g₁ g₂ h₁ h₂ hlt x hx y hy
    have hxc := classname_of_mem_recordsForClass h₁ hx
    have hyc := classname_of_mem_recordsForClass h₂ hy
    exact Or.inl (by rw [hxc, hyc]; exact hlt)

theorem recordsForAnomaly_map_imagePath {source c : String} {split : DatasetSplit}
    {fs : FS} {a : String} {ga : List Record}
    (h : recordsForAnomaly source c split fs a = some ga) :
    ga.map Record.imagePath =
      (sortStr (fs.listFiles c split.value a)).map
        (fun x => pjoin (imgDir source c split.value a) x) := by
  by_cases hcond : split = DatasetSplit.TEST ∧ a ∉ (["good", "fail"] : List String)
  · obtain ⟨rfl, ha⟩ := hcond
    rw [recordsForAnomaly_test_eq source c fs a ha] at h
    split at h
    next hle =>
      rw [Option.some.injEq] at h
      subst h
      rw [List.map_map]
      have hcomp : (Record.imagePath ∘ fun pm : String × String =>
          Record.mk c a pm.1 (some pm.2)) = Prod.fst := rfl
      rw [hcomp, List.map_fst_zip _ _ hle]
      rfl
    next => simp at h
  · rw [recordsForAnomaly_other_eq source c split fs a hcond] at h
    rw [Option.some.injEq] at h
    subst h
    rw [List.map_map]
    have hcomp : (Record.imagePath ∘ fun p : String =>
        Record.mk c a p none) = id := rfl
    rw [hcomp, List.map_id]

theorem filter_recordsForAnomaly_self {source c : String} {split : DatasetSplit}
    {fs : FS} {a : String} {ga : List Record}
    (h : recordsForAnomaly source c split fs a = some ga) :
    ga.filter (fun r => r.classname == c && r.anomaly == a) = ga := by
  rw [List.filter_eq_self]
  intro r hr
  obtain ⟨h1, h2, _⟩ := fields_of_mem_recordsForAnomaly h hr
  rw [h1, h2]
  simp

theorem filter_recordsForAnomaly_other {source c : String} {split : DatasetSplit}
    {fs : FS} {a a' c' : String} {ga : List Record}
    (h : recordsForAnomaly source c' split fs a' = some ga)
    (hne : c' ≠ c ∨ a' ≠ a) :
    ga.filter (fun r => r.classname == c && r.anomaly == a) = [] := by
  rw [List.filter_eq_nil_iff]
  intro r hr
  obtain ⟨h1, h2, _⟩ := fields_of_mem_recordsForAnomaly h hr
  rw [h1, h2]
  rcases hne with hne | hne <;> simp [hne]

theorem filter_recordsForClass_other {source : String} {split : DatasetSplit}
    {fs : FS} {c c' : String} {a : String} {g : List Record}
    (h : recordsForClass source split fs c' = some g) (hne : c' ≠ c) :
    g.filter (fun r => r.classname == c && r.anomaly == a) = [] := by
  rw [List.filter_eq_nil_iff]
  intro r hr
  have h1 := classname_of_mem_recordsForClass h hr
  rw [h1]
  simp [hne]

theorem filter_recordsForClass_eq {source : String} {split : DatasetSplit} {fs : FS}
    {c a : String} {gc ga : List Record}
    (hc : recordsForClass source split fs c = some gc)
    (hag : recordsForAnomaly source c split fs a = some ga)
    (ha : a ∈ fs.listSplit c split.value) :
    gc.filter (fun r => r.classname == c && r.anomaly == a) = ga := by
  obtain ⟨ags, hmm, rfl⟩ := recordsForClass_groups hc
  rw [List.filter_flatten]
  refine flatten_filter_single (forall₂_of_mapM hmm)
    (sortStr_nodup (firstKeys_nodup _)) a
    (mem_sortStr.mpr (mem_firstKeys.mpr ha)) ?_ ga ?_
  · intro k _ g hg hk
    exact filter_recordsForAnomaly_other hg (Or.inr hk)
  · intro g hg
    rw [hg] at hag
    rw [Option.some.injEq] at hag
    subst hag
    exact filter_recordsForAnomaly_self hg

theorem filter_get_image_data_eq {source : String} {classes : List String}
    {split : DatasetSplit} {fs : FS} {c a : String} {recs ga : List Record}
    (h : get_image_data source classes split fs = some recs)
    (hc : c ∈ classes) (ha : a ∈ fs.listSplit c split.value)
    (hag : recordsForAnomaly source c split fs a = some ga) :
    recs.filter (fun r => r.classname == c && r.anomaly == a) = ga := by
  obtain ⟨groups, hmm, rfl⟩ := get_image_data_groups h
  rw [List.filter_flatten]
  refine flatten_filter_single (forall₂_of_mapM hmm)
    (sortStr_nodup (firstKeys_nodup _)) c
    (mem_sortStr.mpr (mem_firstKeys.mpr hc)) ?_ ga ?_
  · intro k _ g hg hk
    exact filter_recordsForClass_other hg hk
  · intro g hg
    exact filter_recordsForClass_eq hg hag ha

theorem exists_recordsForAnomaly {source : String} {classes : List String}
    {split : DatasetSplit} {fs : FS} {recs : List Record} {c a : String}
    (h : get_image_data source classes split fs = some recs)
    (hc : c ∈ classes) (ha : a ∈ fs.listSplit c split.value) :
    ∃ ga, recordsForAnomaly source c split fs a = some ga := by
  obtain ⟨groups, hmm, _⟩ := get_image_data_groups h
  rcases exists_of_forall₂_mem_left (forall₂_of_mapM hmm)
      (mem_sortStr.mpr (mem_firstKeys.mpr hc)) with ⟨gc, _, hgc⟩
  obtain ⟨ags, hmm2, _⟩ := recordsForClass_groups hgc
  rcases exists_of_forall₂_mem_left (forall₂_of_mapM hmm2)
      (mem_sortStr.mpr (mem_firstKeys.mpr ha)) with ⟨ga, _, hag⟩
  exact ⟨ga, hag⟩

/-! ### C1: the mask-presence invariant of every constructed Index -/

/-- C1: in every constructed Index, a record's mask path is present iff the
split is TEST and its anomaly-type is neither "good" nor "fail"; in
particular TRAIN and VAL records never carry a mask path, and "good"
records never do in any split. -/
theorem c1_mask_presence_iff (source : String) (classes : List String)
    (split : DatasetSplit) (fs : FS) (recs : List Record) (r : Record)
    (h : get_image_data source classes split fs = some recs) (hr : r ∈ recs) :
    (r.maskPath ≠ none ↔
      (split = DatasetSplit.TEST ∧ r.anomaly ∉ (["good", "fail"] : List String))) ∧
    ((split = DatasetSplit.TRAIN ∨ split = DatasetSplit.VAL) → r.maskPath = none) ∧
    (r.anomaly = "good" → r.maskPath = none) := by
  rcases mem_get_image_data h hr with ⟨classname, _, anomaly, _, ga, hga, hrga⟩
  obtain ⟨_, hanom, hiff⟩ := fields_of_mem_recordsForAnomaly hga hrga
  subst hanom
  refine ⟨hiff, ?_, ?_⟩
  · intro hsp
    by_contra hne
    rcases (hiff.mp hne).1 with rfl
    rcases hsp with hsp | hsp <;> exact DatasetSplit.noConfusion hsp
  · intro hgood
    by_contra hne
    exact (hiff.mp hne).2 (by simp [hgood])

/-- Witness for C1: the "crack" test record of the toy tree carries a mask
path. -/
theorem c1_mask_presence_iff_witness :
    (get_image_data "root" ["toy"] DatasetSplit.TEST fsTest =
      some [Record.mk "toy" "crack" "root/toy/test/crack/c.png"
              (some "root/toy/ground_truth/crack/c_mask.png"),
            Record.mk "toy" "good" "root/toy/test/good/a.png" none,
            Record.mk "toy" "good" "root/toy/test/good/b.png" none]) ∧
    ((Record.mk "toy" "crack" "root/toy/test/crack/c.png"
        (some "root/toy/ground_truth/crack/c_mask.png")).maskPath ≠ none ↔
      (DatasetSplit.TEST = DatasetSplit.TEST ∧
        (Record.mk "toy" "crack" "root/toy/test/crack/c.png"
          (some "root/toy/ground_truth/crack/c_mask.png")).anomaly ∉
          (["good", "fail"] : List String))) :=
  ⟨by decide,
    (c1_mask_presence_iff "root" ["toy"] DatasetSplit.TEST fsTest
      [Record.mk "toy" "crack" "root/toy/test/crack/c.png"
        (some "root/toy/ground_truth/crack/c_mask.png"),
       Record.mk "toy" "good" "root/toy/test/good/a.png" none,
       Record.mk "toy" "good" "root/toy/test/good/b.png" none]
      (Record.mk "toy" "crack" "root/toy/test/crack/c.png"
        (some "root/toy/ground_truth/crack/c_mask.png"))
      (by decide) (by decide)).1⟩

/-! ### C2: mismatched file/mask counts -/

/-- C2 counterexample: with two sorted crack images but a single crack mask
file, the test-split scan raises (an `IndexError` from
`maskpaths_per_class[classname][anomaly][i]`) instead of building a
misaligned Index without error: `get_image_data` yields no Index at all,
refuting the claim that no error is raised whenever the counts differ. -/
theorem c2_counterexample_short_masks :
    (sortStr (fsShortMasks.listFiles "toy" "test" "crack")).length ≠
      (sortStr (fsShortMasks.listMasks "toy" "crack")).length ∧
    get_image_data "root" ["toy"] DatasetSplit.TEST fsShortMasks = none := by
  constructor
  · decide
  · decide

/-- C2 amended: for every class and anomaly-type scanned in split = TEST
with anomaly-type not in {"good","fail"}, if the sorted mask files are at
least as many as the sorted image files the scan succeeds and silently
pairs image `i` with mask `i`, ignoring the surplus masks (so a count
mismatch with extra masks is silent positional misalignment); if the masks
are fewer, the scan raises instead of succeeding. -/
theorem c2_amended_pairing_or_raise (source classname : String) (fs : FS)
    (anomaly : String) (ha : anomaly ∉ (["good", "fail"] : List String)) :
    ((sortStr (fs.listFiles classname "test" anomaly)).length ≤
        (sortStr (fs.listMasks classname anomaly)).length →
      recordsForAnomaly source classname DatasetSplit.TEST fs anomaly =
        some ((((sortStr (fs.listFiles classname "test" anomaly)).map
            (fun x => pjoin (imgDir source classname "test" anomaly) x)).zip
          ((sortStr (fs.listMasks classname anomaly)).map
            (fun x => pjoin (maskDir source classname anomaly) x))).map
          (fun pm => Record.mk classname anomaly pm.1 (some pm.2)))) ∧
    ((sortStr (fs.listMasks classname anomaly)).length <
        (sortStr (fs.listFiles classname "test" anomaly)).length →
      recordsForAnomaly source classname DatasetSplit.TEST fs anomaly = none) := by
  rw [recordsForAnomaly_test_eq source classname fs anomaly ha]
  constructor
  · intro hle
    rw [if_pos (by simpa using hle)]
  · intro hlt
    rw [if_neg (by simpa using Nat.not_le_of_lt hlt)]

/-- Witness for C2: one crack image, two crack masks — the scan succeeds,
pairs the image with the first sorted mask and silently drops the other. -/
theorem c2_amended_pairing_or_raise_witness :
    recordsForAnomaly "root" "toy" DatasetSplit.TEST fsExtraMasks "crack" =
      some [Record.mk "toy" "crack" "root/toy/test/crack/a.png"
              (some "root/toy/ground_truth/crack/a_mask.png")] :=
  (c2_amended_pairing_or_raise "root" "toy" fsExtraMasks "crack" (by decide)).1
    (by decide)

/-! ### C10: a divide position at or past the chunk size keeps nothing -/

/-- C10: for every full Index, every `divide_num > 1` and every
`divide_iter >= divide_num`, the subsetting step returns an empty Index:
every chunk has length at most `divide_num`, so no chunk has an element at
position `divide_iter`. -/
theorem c10_subset_empty_of_iter_ge {S : Type} (seedInit : Nat → S)
    (shuffle : S → List Nat → List Nat × S) (full : List Record)
    (divide_num divide_iter random_seed : Nat)
    (h1 : 1 < divide_num) (h2 : divide_num ≤ divide_iter) :
    sub_datasets seedInit shuffle full divide_num divide_iter random_seed = [] := by
  rw [sub_datasets, if_neg (by omega)]
  simp only []
  rw [foldl_fst_of_step_fst]
  · rfl
  · intro acc k
    simp only [List.append_right_eq_self, List.filterMap_eq_nil_iff]
    intro c hc
    rw [if_neg]
    have := length_le_of_mem_chunkList divide_num _ hc
    omega

/-- Witness for C10 at a concrete input. -/
theorem c10_subset_empty_of_iter_ge_witness :
    sub_datasets (fun _ => ()) (fun s l => (l, s))
      [Record.mk "toy" "good" "root/toy/train/good/a.png" none,
       Record.mk "toy" "good" "root/toy/train/good/b.png" none,
       Record.mk "toy" "good" "root/toy/train/good/c.png" none] 2 2 42 = [] :=
  c10_subset_empty_of_iter_ge (fun _ => ()) (fun s l => (l, s)) _ 2 2 42
    (by decide) (by decide)

/-! ### C9: a few-shot count at least the Index size leaves the Index unchanged -/

/-- C9: for every constructed Index and every few-shot count `k_shot > 0`
with `k_shot` at least the current Index size, the constructor leaves the
Index exactly unchanged: no truncation, no resampling, no padding. -/
theorem c9_few_shot_noop_of_large_k {S : Type} (seedInit : Nat → S)
    (shuffle : S → List Nat → List Nat × S) (randint : Nat → Nat → Nat → List Nat)
    (source : String) (classes : List String) (split : DatasetSplit) (fs : FS)
    (p : Params) (full d1 : List Record)
    (hfull : get_image_data source classes split fs = some full)
    (hd1 : d1 = if 1 < p.divide_num then
        sub_datasets seedInit shuffle full p.divide_num p.divide_iter p.random_seed
      else full)
    (hk : 0 < p.k_shot) (hge : d1.length ≤ p.k_shot) :
    init_dataset seedInit shuffle randint source classes split fs p = some d1 := by
  rw [init_dataset, hfull]
  simp only [Option.bind_eq_bind, Option.some_bind]
  rw [← hd1, few_shot_step, if_pos hk, if_pos hge]

/-- Witness for C9: three train records, `k_shot = 5`. -/
theorem c9_few_shot_noop_of_large_k_witness :
    init_dataset (fun _ => ()) (fun s l => (l, s)) (fun _ _ _ => [])
      "root" ["toy"] DatasetSplit.TRAIN fsTrain3 (Params.mk 1 0 5 42) =
      some [Record.mk "toy" "good" "root/toy/train/good/a.png" none,
            Record.mk "toy" "good" "root/toy/train/good/b.png" none,
            Record.mk "toy" "good" "root/toy/train/good/c.png" none] :=
  c9_few_shot_noop_of_large_k (fun _ => ()) (fun s l => (l, s)) (fun _ _ _ => [])
    "root" ["toy"] DatasetSplit.TRAIN fsTrain3 (Params.mk 1 0 5 42)
    [Record.mk "toy" "good" "root/toy/train/good/a.png" none,
     Record.mk "toy" "good" "root/toy/train/good/b.png" none,
     Record.mk "toy" "good" "root/toy/train/good/c.png" none]
    [Record.mk "toy" "good" "root/toy/train/good/a.png" none,
     Record.mk "toy" "good" "root/toy/train/good/b.png" none,
     Record.mk "toy" "good" "root/toy/train/good/c.png" none]
    (by decide) (by decide) (by decide) (by decide)

/-! ### C5: few-shot resampling with replacement -/

/-- C5: for every constructed Index and few-shot count `k_shot` with
`0 < k_shot <` current Index size, the constructor replaces the Index with
exactly the records at the `k_shot` generator-drawn indices, so the result
has length exactly `k_shot` (duplicate records possible, as the draw is
with replacement). -/
theorem c5_few_shot_resamples {S : Type} (seedInit : Nat → S)
    (shuffle : S → List Nat → List Nat × S) (randint : Nat → Nat → Nat → List Nat)
    (source : String) (classes : List String) (split : DatasetSplit) (fs : FS)
    (p : Params) (full d1 : List Record)
    (hfull : get_image_data source classes split fs = some full)
    (hd1 : d1 = if 1 < p.divide_num then
        sub_datasets seedInit shuffle full p.divide_num p.divide_iter p.random_seed
      else full)
    (hk : 0 < p.k_shot) (hlt : p.k_shot < d1.length)
    (hlen : (randint p.random_seed d1.length p.k_shot).length = p.k_shot)
    (hbound : ∀ i ∈ randint p.random_seed d1.length p.k_shot, i < d1.length) :
    init_dataset seedInit shuffle randint source classes split fs p =
      some ((randint p.random_seed d1.length p.k_shot).map (fun i => d1.getD i default))
    ∧ ((randint p.random_seed d1.length p.k_shot).map
        (fun i => d1.getD i default)).length = p.k_shot := by
  constructor
  · rw [init_dataset, hfull]
    simp only [Option.bind_eq_bind, Option.some_bind]
    rw [← hd1, few_shot_step, if_pos hk, if_neg (by omega)]
    exact mapM_get?_eq_map _ hbound
  · rw [List.length_map, hlen]

/-- Witness for C5: from three train records, a generator that draws index 0
twice yields a two-element Index holding the same record twice. -/
theorem c5_few_shot_resamples_witness :
    init_dataset (fun _ => ()) (fun s l => (l, s)) (fun _ _ _ => [0, 0])
      "root" ["toy"] DatasetSplit.TRAIN fsTrain3 (Params.mk 1 0 2 42) =
      some [Record.mk "toy" "good" "root/toy/train/good/a.png" none,
            Record.mk "toy" "good" "root/toy/train/good/a.png" none]
    ∧ ([Record.mk "toy" "good" "root/toy/train/good/a.png" none,
        Record.mk "toy" "good" "root/toy/train/good/a.png" none] : List Record).length = 2 :=
  c5_few_shot_resamples (fun _ => ()) (fun s l => (l, s)) (fun _ _ _ => [0, 0])
    "root" ["toy"] DatasetSplit.TRAIN fsTrain3 (Params.mk 1 0 2 42)
    [Record.mk "toy" "good" "root/toy/train/good/a.png" none,
     Record.mk "toy" "good" "root/toy/train/good/b.png" none,
     Record.mk "toy" "good" "root/toy/train/good/c.png" none]
    [Record.mk "toy" "good" "root/toy/train/good/a.png" none,
     Record.mk "toy" "good" "root/toy/train/good/b.png" none,
     Record.mk "toy" "good" "root/toy/train/good/c.png" none]
    (by decide) (by decide) (by decide) (by decide) (by decide) (by decide)

/-! ### C6: construction is deterministic under a fixed seed -/

/-- C6: two constructions with identical directory contents and identical
`divide_num`, `divide_iter`, `k_shot` and seed (the seeded generators being
the fixed library ones) produce identical Indexes, record for record. -/
theorem c6_deterministic {S : Type} (seedInit : Nat → S)
    (shuffle : S → List Nat → List Nat × S) (randint : Nat → Nat → Nat → List Nat)
    (source₁ source₂ : String) (classes₁ classes₂ : List String)
    (split₁ split₂ : DatasetSplit) (fs₁ fs₂ : FS) (p₁ p₂ : Params)
    (hs : source₁ = source₂) (hc : classes₁ = classes₂) (hsp : split₁ = split₂)
    (hf : fs₁ = fs₂) (hp : p₁ = p₂) :
    init_dataset seedInit shuffle randint source₁ classes₁ split₁ fs₁ p₁ =
      init_dataset seedInit shuffle randint source₂ classes₂ split₂ fs₂ p₂ := by
  subst hs; subst hc; subst hsp; subst hf; subst hp; rfl

/-- Witness for C6 at concrete inputs. -/
theorem c6_deterministic_witness :
    init_dataset (fun _ => ()) (fun s l => (l, s)) (fun _ _ _ => [0, 0])
      "root" ["toy"] DatasetSplit.TEST fsTest (Params.mk 2 0 2 42) =
      init_dataset (fun _ => ()) (fun s l => (l, s)) (fun _ _ _ => [0, 0])
        "root" ["toy"] DatasetSplit.TEST fsTest (Params.mk 2 0 2 42) :=
  c6_deterministic (fun _ => ()) (fun s l => (l, s)) (fun _ _ _ => [0, 0])
    "root" "root" ["toy"] ["toy"] DatasetSplit.TEST DatasetSplit.TEST
    fsTest fsTest (Params.mk 2 0 2 42) (Params.mk 2 0 2 42)
    rfl rfl rfl rfl rfl

/-! ### C3: deterministic ordering of the untouched Index -/

/-- C3: with no subset step (`divide_num <= 1`) and no few-shot step
(`k_shot = 0`), the constructed Index is ordered by class name
(lexicographically), then anomaly-type (lexicographically) within a class;
and within each scanned `(class, anomaly-type)` pair its records carry, in
order, exactly the lexicographically sorted file listing of that anomaly
directory. -/
theorem c3_index_ordering {S : Type} (seedInit : Nat → S)
    (shuffle : S → List Nat → List Nat × S) (randint : Nat → Nat → Nat → List Nat)
    (source : String) (classes : List String) (split : DatasetSplit) (fs : FS)
    (p : Params) (recs : List Record)
    (hdn : p.divide_num ≤ 1) (hk : p.k_shot = 0)
    (h : init_dataset seedInit shuffle randint source classes split fs p = some recs) :
    recs.Pairwise recordKeyLE ∧
    ∀ c ∈ classes, ∀ a ∈ fs.listSplit c split.value,
      (recs.filter (fun r => r.classname == c && r.anomaly == a)).map
          Record.imagePath =
        (sortStr (fs.listFiles c split.value a)).map
          (fun x => pjoin (imgDir source c split.value a) x) := by
  have hg : get_image_data source classes split fs = some recs := by
    rw [init_dataset] at h
    cases hgid : get_image_data source classes split fs with
    | none => rw [hgid] at h; simp at h
    | some full =>
      rw [hgid] at h
      simp only [Option.bind_eq_bind, Option.some_bind] at h
      rw [if_neg (by omega), few_shot_step, hk, if_neg (by omega)] at h
      rw [Option.some.injEq] at h
      rw [h]
  constructor
  · exact get_image_data_pairwise hg
  · intro c hc a ha
    obtain ⟨ga, hag⟩ := exists_recordsForAnomaly hg hc ha
    rw [filter_get_image_data_eq hg hc ha hag]
    exact recordsForAnomaly_map_imagePath hag

/-- Witness for C3 at a concrete directory: the "toy"/"crack" group of the
constructed test Index lists exactly the sorted crack files. -/
theorem c3_index_ordering_witness :
    (init_dataset (fun _ => ()) (fun s l => (l, s)) (fun _ _ _ => [])
        "root" ["toy"] DatasetSplit.TEST fsTest (Params.mk 1 0 0 42) =
      some [Record.mk "toy" "crack" "root/toy/test/crack/c.png"
              (some "root/toy/ground_truth/crack/c_mask.png"),
            Record.mk "toy" "good" "root/toy/test/good/a.png" none,
            Record.mk "toy" "good" "root/toy/test/good/b.png" none]) ∧
    (([Record.mk "toy" "crack" "root/toy/test/crack/c.png"
         (some "root/toy/ground_truth/crack/c_mask.png"),
       Record.mk "toy" "good" "root/toy/test/good/a.png" none,
       Record.mk "toy" "good" "root/toy/test/good/b.png" none].filter
        (fun r => r.classname == "toy" && r.anomaly == "crack")).map
          Record.imagePath =
      (sortStr (fsTest.listFiles "toy" "test" "crack")).map
        (fun x => pjoin (imgDir "root" "toy" "test" "crack") x)) :=
  ⟨by decide,
    (c3_index_ordering (fun _ => ()) (fun s l => (l, s)) (fun _ _ _ => [])
      "root" ["toy"] DatasetSplit.TEST fsTest (Params.mk 1 0 0 42)
      [Record.mk "toy" "crack" "root/toy/test/crack/c.png"
         (some "root/toy/ground_truth/crack/c_mask.png"),
       Record.mk "toy" "good" "root/toy/test/good/a.png" none,
       Record.mk "toy" "good" "root/toy/test/good/b.png" none]
      (by decide) (by decide) (by decide)).2 "toy" (by decide) "crack" (by decide)⟩

/-! ### C4: the subsetting step matches the spec's stratified description -/

/-- C4: for `divide_num > 1`, `sub_datasets` is exactly the spec's uniform
subset step — group record indices by anomaly-type, shuffle each group with
the seeded generator, cut each group into chunks of `divide_num`, keep the
element at position `divide_iter` of every chunk that has one — provided the
second-to-last image-path component of each record (the grouping key the
code extracts) is its anomaly-type, as is the case for every path
`get_image_data` builds. -/
theorem c4_subset_matches_spec {S : Type} (seedInit : Nat → S)
    (shuffle : S → List Nat → List Nat × S) (full : List Record)
    (divide_num divide_iter random_seed : Nat)
    (hdn : 1 < divide_num)
    (hkey : ∀ r ∈ full, pathKey r.imagePath = r.anomaly) :
    sub_datasets seedInit shuffle full divide_num divide_iter random_seed =
      sub_datasets_spec seedInit shuffle full divide_num divide_iter random_seed := by
  have hfilter : ∀ k : String,
      (List.range full.length).filter
        (fun i => pathKey (full.getD i default).imagePath == k) =
      (List.range full.length).filter
        (fun i => (full.getD i default).anomaly == k) := by
    intro k
    apply List.filter_congr
    intro i hi
    have hilt : i < full.length := List.mem_range.mp hi
    have hmem : full.getD i default ∈ full := by
      rw [List.getD_eq_getElem?_getD, List.getElem?_eq_getElem hilt]
      exact List.getElem_mem hilt
    rw [hkey _ hmem]
  rw [sub_datasets, if_neg (by omega), sub_datasets_spec]
  simp only []
  rw [List.map_congr_left hkey]
  congr 1
  congr 1
  apply List.foldl_ext
  intro acc k _
  rw [hfilter k]

/-- Witness for C4 at a concrete input: three test records in two
anomaly-type groups, a reversing shuffle, chunks of two, position zero. -/
theorem c4_subset_matches_spec_witness :
    sub_datasets (fun _ => ()) (fun s l => (l.reverse, s))
      [Record.mk "toy" "crack" "root/toy/test/crack/c.png"
         (some "root/toy/ground_truth/crack/c_mask.png"),
       Record.mk "toy" "good" "root/toy/test/good/a.png" none,
       Record.mk "toy" "good" "root/toy/test/good/b.png" none] 2 0 42 =
      sub_datasets_spec (fun _ => ()) (fun s l => (l.reverse, s))
        [Record.mk "toy" "crack" "root/toy/test/crack/c.png"
           (some "root/toy/ground_truth/crack/c_mask.png"),
         Record.mk "toy" "good" "root/toy/test/good/a.png" none,
         Record.mk "toy" "good" "root/toy/test/good/b.png" none] 2 0 42 :=
  c4_subset_matches_spec (fun _ => ()) (fun s l => (l.reverse, s))
    [Record.mk "toy" "crack" "root/toy/test/crack/c.png"
       (some "root/toy/ground_truth/crack/c_mask.png"),
     Record.mk "toy" "good" "root/toy/test/good/a.png" none,
     Record.mk "toy" "good" "root/toy/test/good/b.png" none] 2 0 42
    (by decide) (by decide)

/-! ### C7: `is_anomaly` is 0 exactly for anomaly-type "good" -/

/-- C7: retrieval at any in-range index yields `is_anomaly = 0` exactly when
the record's anomaly-type is "good", and `is_anomaly = 1` for every other
anomaly-type (including "fail"). -/
theorem c7_is_anomaly_iff_good {Img : Type} (loadRGB : String → Img)
    (transform_img : Img → Tensor) (loadMask : String → Img)
    (transform_mask : Img → Tensor) (split : DatasetSplit)
    (data : List Record) (idx : Nat) (r : Record) (s : Sample)
    (hr : data.get? idx = some r)
    (hs : getItem loadRGB transform_img loadMask transform_mask split data idx = some s) :
    (s.is_anomaly = 0 ↔ r.anomaly = "good") ∧
    (r.anomaly ≠ "good" → s.is_anomaly = 1) := by
  rw [getItem, hr] at hs
  simp only [Option.bind_eq_bind, Option.some_bind, Option.pure_def,
    Option.some.injEq] at hs
  subst hs
  by_cases h : r.anomaly = "good"
  · simp [h]
  · simp [h]

/-- Witness for C7: a "fail" record retrieves with `is_anomaly = 1`. -/
theorem c7_is_anomaly_iff_good_witness :
    ([Record.mk "toy" "fail" "root/toy/test/fail/a.png" none].get? 0 =
      some (Record.mk "toy" "fail" "root/toy/test/fail/a.png" none)) ∧
    ((Sample.mk (Tensor.mk [3, 2, 2] (List.replicate 12 0))
        (Tensor.zeros [1, 2, 2]) 1 "root/toy/test/fail/a.png").is_anomaly = 0 ↔
      (Record.mk "toy" "fail" "root/toy/test/fail/a.png" none).anomaly = "good") :=
  ⟨by decide,
    (c7_is_anomaly_iff_good (fun _ => ()) (fun _ => Tensor.mk [3, 2, 2] (List.replicate 12 0))
      (fun _ => ()) (fun _ => Tensor.mk [1, 2, 2] (List.replicate 4 0)) DatasetSplit.TEST
      [Record.mk "toy" "fail" "root/toy/test/fail/a.png" none] 0
      (Record.mk "toy" "fail" "root/toy/test/fail/a.png" none)
      (Sample.mk (Tensor.mk [3, 2, 2] (List.replicate 12 0))
        (Tensor.zeros [1, 2, 2]) 1 "root/toy/test/fail/a.png")
      (by decide) (by decide)).1⟩

/-! ### C8: mask loading versus the all-zero mask -/

/-- C8: at any in-range index, when `split = TEST` and the record has a mask
path, retrieval applies the mask pipeline to the loaded mask file; otherwise
it yields a single-channel all-zero tensor whose height and width match the
transformed image's. -/
theorem c8_mask_of_sample {Img : Type} (loadRGB : String → Img)
    (transform_img : Img → Tensor) (loadMask : String → Img)
    (transform_mask : Img → Tensor) (split : DatasetSplit)
    (data : List Record) (idx : Nat) (r : Record) (s : Sample)
    (hr : data.get? idx = some r)
    (hs : getItem loadRGB transform_img loadMask transform_mask split data idx = some s) :
    (∀ mp, split = DatasetSplit.TEST → r.maskPath = some mp →
      s.mask = transform_mask (loadMask mp)) ∧
    (split ≠ DatasetSplit.TEST ∨ r.maskPath = none →
      s.mask.shape = 1 :: s.image.shape.drop 1 ∧ ∀ v ∈ s.mask.entries, v = 0) := by
  rw [getItem, hr] at hs
  simp only [Option.bind_eq_bind, Option.some_bind, Option.pure_def,
    Option.some.injEq] at hs
  subst hs
  constructor
  · intro mp hsp hmp
    subst hsp
    rw [hmp]
    rfl
  · intro h
    have hz : maskOf loadMask transform_mask split r.maskPath
        (transform_img (loadRGB r.imagePath)) =
        Tensor.zeros (1 :: (transform_img (loadRGB r.imagePath)).shape.drop 1) := by
      rcases h with h | h
      · cases split with
        | TRAIN => cases r.maskPath <;> rfl
        | VAL => cases r.maskPath <;> rfl
        | TEST => exact absurd rfl h
      · rw [h]; cases split <;> rfl
    rw [hz]
    exact ⟨rfl, fun v hv => (List.eq_of_mem_replicate hv)⟩

/-- Witness for C8: a train record without a mask path yields the all-zero
single-channel mask sized to the image. -/
theorem c8_mask_of_sample_witness :
    ([Record.mk "toy" "good" "root/toy/train/good/a.png" none].get? 0 =
      some (Record.mk "toy" "good" "root/toy/train/good/a.png" none)) ∧
    ((Sample.mk (Tensor.mk [3, 2, 2] (List.replicate 12 0))
        (Tensor.zeros [1, 2, 2]) 0 "root/toy/train/good/a.png").mask.shape =
      1 :: (Sample.mk (Tensor.mk [3, 2, 2] (List.replicate 12 0))
        (Tensor.zeros [1, 2, 2]) 0 "root/toy/train/good/a.png").image.shape.drop 1 ∧
      ∀ v ∈ (Sample.mk (Tensor.mk [3, 2, 2] (List.replicate 12 0))
        (Tensor.zeros [1, 2, 2]) 0 "root/toy/train/good/a.png").mask.entries, v = 0) :=
  ⟨by decide,
    (c8_mask_of_sample (fun _ => ()) (fun _ => Tensor.mk [3, 2, 2] (List.replicate 12 0))
      (fun _ => ()) (fun _ => Tensor.mk [1, 2, 2] (List.replicate 4 0)) DatasetSplit.TRAIN
      [Record.mk "toy" "good" "root/toy/train/good/a.png" none] 0
      (Record.mk "toy" "good" "root/toy/train/good/a.png" none)
      (Sample.mk (Tensor.mk [3, 2, 2] (List.replicate 12 0))
        (Tensor.zeros [1, 2, 2]) 0 "root/toy/train/good/a.png")
      (by decide) (by decide)).2 (Or.inl (by decide))⟩

end MVTec
